import Mathlib

/-!
Shallow embedding of the `flagged` library and its `genflagged` generator,
with theorems checking the specification's claims against the embedded code.

Part 1: the BitFlags runtime (`flagged.go`).

A `BitFlagsN` value is a fixed-width unsigned integer; we embed it as a
`Nat` value together with the width (`size ∈ {8,16,32,64}`).  Bit indexes
are Go `int`s, embedded as `Int`.  A Go panic aborts the operation; we
embed a panicking operation as `Option.none`.
-/

namespace Flagged

/-- Embeds `validateBitIndex` from `flagged.go`: the check succeeds exactly
when `¬(idx < 0 ∨ idx ≥ size)`.  (The Go function panics on failure; we
return the Bool of the check and let callers map failure to `none`.) -/
def validateBitIndex (size : Nat) (idx : Int) : Bool :=
  !(idx < 0 || idx ≥ (size : Int))

/-- Embeds the generic `is` from `flagged.go`: validate, then test
`(f & (1 << idx)) != 0`. -/
def isOp (size : Nat) (f : Nat) (idx : Int) : Option Bool :=
  if validateBitIndex size idx then
    some (decide ((f &&& (1 <<< idx.toNat)) ≠ 0))
  else none

/-- Embeds the generic `set` from `flagged.go` (used by `Set`, `Reset`,
`SetTo`): validate, read the old bit, then `|=` or `&^=` the mask.
Returns the old bit and the new flags value. -/
def setOp (size : Nat) (f : Nat) (idx : Int) (nv : Bool) : Option (Bool × Nat) :=
  if validateBitIndex size idx then
    let old := decide ((f &&& (1 <<< idx.toNat)) ≠ 0)
    let f' := if nv then f ||| (1 <<< idx.toNat) else f.ldiff (1 <<< idx.toNat)
    some (old, f')
  else none

/-- Embeds the generic `toggle` from `flagged.go`: validate, `^=` the mask,
return the new bit and the new flags value. -/
def toggleOp (size : Nat) (f : Nat) (idx : Int) : Option (Bool × Nat) :=
  if validateBitIndex size idx then
    let f' := f ^^^ (1 <<< idx.toNat)
    some (decide ((f' &&& (1 <<< idx.toNat)) ≠ 0), f')
  else none

/-- Embeds the generic `anySet` from `flagged.go` (used by `AnySet` and
`AnyOf`): with no indexes it is `f != 0`; otherwise it validates every
index in turn (panicking on the first invalid one) while or-ing the bits. -/
def anySetOp (size : Nat) (f : Nat) (idx : List Int) : Option Bool :=
  if idx.isEmpty then some (decide (f ≠ 0))
  else
    idx.foldl (fun acc bi =>
      match acc with
      | none => none
      | some foundSet =>
        if validateBitIndex size bi then
          some (foundSet || decide ((f &&& (1 <<< bi.toNat)) ≠ 0))
        else none) (some false)

/-- Embeds the generic `allSet` from `flagged.go` (used by `AllSet` and
`AllOf`): with no indexes it is `f == ^T(0)`; otherwise it validates every
index while and-ing the bits. -/
def allSetOp (size : Nat) (f : Nat) (idx : List Int) : Option Bool :=
  if idx.isEmpty then some (decide (f = 2 ^ size - 1))
  else
    idx.foldl (fun acc bi =>
      match acc with
      | none => none
      | some foundUnset =>
        if validateBitIndex size bi then
          some (foundUnset && !decide ((f &&& (1 <<< bi.toNat)) = 0))
        else none) (some true)

/-- Embeds `flagSize` from the generator: the switch mapping a field count
to the bit width of the generated type (default branch returns the count
unchanged). -/
def flagSize (numFields : Nat) : Nat :=
  if 0 < numFields ∧ numFields ≤ 8 then 8
  else if 8 < numFields ∧ numFields ≤ 16 then 16
  else if 16 < numFields ∧ numFields ≤ 32 then 32
  else if 32 < numFields ∧ numFields ≤ 64 then 64
  else numFields

/-- Embeds `defaultOutTypeName` from the generator. -/
def defaultOutTypeName (sourceTypeName : String) : String :=
  sourceTypeName ++ "BitFlags"

/-- Embeds `bytes.TrimPrefix`: drop the prefix when present, else return
the input unchanged.  Field names are embedded as `List Char` (the Go code
works on the bytes of the name; all relevant characters are ASCII, where
bytes and characters coincide). -/
def trimPrefix (s p : List Char) : List Char :=
  if p.isPrefixOf s then s.drop p.length else s

/-- Embeds `bytes.TrimSuffix`: drop the suffix when present, else return
the input unchanged. -/
def trimSuffix (s p : List Char) : List Char :=
  if p.isSuffixOf s then s.take (s.length - p.length) else s

/-- Embeds `flagName` from the generator: trim the prefix when configured,
then the suffix when configured, then upper-case byte 0.  Indexing `fn[0]`
on an empty result is a Go panic, embedded as `none`.  `Char.toUpper`
matches `unicode.ToUpper` on the ASCII range the byte-level Go code
handles. -/
def flagName (fieldName trimP trimS : List Char) : Option (List Char) :=
  let fn := if trimP.length > 0 then trimPrefix fieldName trimP else fieldName
  let fn := if trimS.length > 0 then trimSuffix fn trimS else fn
  match fn with
  | [] => none
  | c :: cs => some (c.toUpper :: cs)

/-- What the spec says the flag-name derivation is: remove the prefix when
the name starts with it, remove the suffix when the remainder ends with
it, upper-case the first character.  (Unconditional trims, written from
the spec's words, for comparison with `flagName` from the source.) -/
def specFlagName (fieldName trimP trimS : List Char) : List Char :=
  let r1 := if trimP.isPrefixOf fieldName then fieldName.drop trimP.length else fieldName
  let r2 := if trimS.isSuffixOf r1 then r1.take (r1.length - trimS.length) else r1
  match r2 with
  | [] => []
  | c :: cs => c.toUpper :: cs

/-!
Part 2: the Type Resolver (`struct_file.go`).

A parsed file is embedded as its list of top-level `type` specs.  A field's
declared type is embedded already resolved through the type-checker's
`defs` table and `types.Unalias`: the constructors record the kind of the
fully unaliased type (`*types.Basic` boolean, other `*types.Basic`,
a struct literal, or any other named/non-basic type).
-/

/-- The alias-resolved kind of a type expression, as the Go code observes
it through `types.Unalias` on the checker's object types. -/
inductive GoFieldType where
  | goBool : GoFieldType
  | basicNonBool : String → GoFieldType
  | structType : List (List String × GoFieldType) → GoFieldType
  | namedType : String → GoFieldType

/-- One `ast.TypeSpec`: a declared type name and the shape of its
right-hand side.  A struct's field groups are `(names, type)` pairs; an
embedded field has an empty name list. -/
structure TypeSpec where
  name : String
  type : GoFieldType

/-- Whether the alias-resolved field type is a `*types.Basic` with the
`IsBoolean` info bit, which is what `genStructDecl` accepts. -/
def isBasicBool : GoFieldType → Bool
  | .goBool => true
  | _ => false

/-- The names one field group contributes in `genStructDecl`'s field loop:
embedded fields (no names) are skipped, each name `_` is skipped, and a
name qualifies only when the group's resolved type is a builtin boolean. -/
def fieldGroupCandidates (field : List String × GoFieldType) : List String :=
  if field.1.isEmpty then []
  else field.1.filter (fun n => n != "_" && isBasicBool field.2)

/-- The candidate field names `genStructDecl` accumulates over the matched
struct's top-level field list, in declaration order.  It never recurses
into a field whose type is itself a struct literal. -/
def structCandidates (fields : List (List String × GoFieldType)) : List String :=
  fields.foldl (fun acc field => acc ++ fieldGroupCandidates field) []

/-- The per-file state `genStructDecl` leaves behind: whether the
requested name was found (set as soon as a `TypeSpec` name matches,
whatever its shape), the accumulated candidate field names, and the
computed flags size. -/
structure FileScan where
  foundSourceType : Bool
  flagValues : List String
  flagsSize : Nat
  deriving Repr, DecidableEq

/-- One iteration of `genStructDecl`'s spec loop: on a name match mark
the type found regardless of shape; when the shape is a struct,
(re)compute the candidate list from its top-level fields. -/
def genStructDeclStep (sourceTypeName : String) (st : FileScan)
    (spec : TypeSpec) : FileScan :=
  if spec.name = sourceTypeName then
    match spec.type with
    | .structType fields =>
      { st with foundSourceType := true, flagValues := structCandidates fields }
    | _ => { st with foundSourceType := true }
  else st

/-- Embeds `genStructDecl` applied to one file: walk the type specs with
`genStructDeclStep`, then set `flagsSize` from the number of collected
candidates. -/
def genStructDecl (sourceTypeName : String) (specs : List TypeSpec) : FileScan :=
  let s := specs.foldl (genStructDeclStep sourceTypeName) ⟨false, [], 0⟩
  { s with flagsSize := Flagged.flagSize s.flagValues.length }

/-- Embeds `isValidStructFile`: the scan is valid when it collected at
least one flag value. -/
def FileScan.isValidStructFile (f : FileScan) : Bool :=
  !f.flagValues.isEmpty

/-- Embeds `findStructTypeFile`: scan each file in order and return the
scan of the first file in which the requested name was found, without
looking at any later file. -/
def findStructTypeFile (files : List (List TypeSpec)) (t : String) : Option FileScan :=
  match files with
  | [] => none
  | f :: rest =>
    let scan := genStructDecl t f
    if scan.foundSourceType then some scan else findStructTypeFile rest t

/-- The Field Candidates the spec describes for a struct declaration:
exactly the top-level field groups that are named (not embedded), each
name that is not the blank identifier, and only when the alias-resolved
type is a builtin boolean, in field-declaration order.  (Written from the
spec's words, for comparison with `structCandidates` from the source.) -/
def specCandidates (fields : List (List String × GoFieldType)) : List String :=
  (fields.filter (fun field => !field.1.isEmpty)).flatMap
    (fun field => field.1.filter (fun n => n ≠ "_" ∧ isBasicBool field.2))

/-- The flag names the generator derives for a scanned struct, one per
candidate field, with a panic (`none`) propagated when any field's
trimmed name comes out empty. -/
def fileFlagNames (trimP trimS : List Char) (scan : FileScan) : Option (List (List Char)) :=
  scan.flagValues.mapM (fun n => Flagged.flagName n.data trimP trimS)

/-!
Part 3: the driver (`genflagged.go` `main`, `generateForStruct`) and the
package ordering.  A `log.Fatalf` aborts the whole run; we embed the run
in `Except GenError`, with one constructor per fatal diagnostic carrying
exactly the data the Go message interpolates.
-/

/-- The fatal diagnostics of the generator run, one constructor per
`log.Fatalf` site relevant to the claims, carrying the values the Go
format string interpolates. -/
inductive GenError where
  | unsupportedType : String → String → GenError
  | tooManyFields : String → Nat → Nat → GenError
  | sizeTooSmall : String → Nat → Nat → GenError
  | singleOutFileConflict : String → GenError
  | noMatchingTypes : List String → GenError
  deriving Repr, DecidableEq

/-- Embeds the override check inside `generateForStruct`: when the
`-size` flag is nonzero, fail when it is smaller than the minimal size,
else use it; when it is zero, keep the minimal size. -/
def reconcileSize (sourceTypeName : String) (minimal : Nat) (override : Nat) :
    Except GenError Nat :=
  if override ≠ 0 then
    if override < minimal then
      .error (.sizeTooSmall sourceTypeName minimal override)
    else .ok override
  else .ok minimal

/-- One emitted generated type: source name, chosen output type name, and
the bit width of the generated type. -/
structure Emission where
  sourceTypeName : String
  outTypeName : String
  size : Nat
  deriving Repr, DecidableEq

/-- Embeds `generateForStruct`: fail when the scan's flags size exceeds
64 (the message interpolates that size and the maximum 64), then
reconcile against the `-size` override, yielding the emission. -/
def generateForStruct (sourceTypeName outTypeName : String) (flagsSizeFlag : Nat)
    (scan : FileScan) : Except GenError Emission :=
  if scan.flagsSize > 64 then
    .error (.tooManyFields sourceTypeName scan.flagsSize 64)
  else
    match reconcileSize sourceTypeName scan.flagsSize flagsSizeFlag with
    | .error e => .error e
    | .ok size => .ok ⟨sourceTypeName, outTypeName, size⟩

/-- One loaded package variant: its package name, its parsed files, and
whether it contains test files. -/
structure Package where
  name : String
  files : List (List TypeSpec)
  hasTestFiles : Bool

/-- Embeds the `sort.Slice` comparator in `main`: packages whose name
ends in `_test` sort last; otherwise the package with fewer files sorts
first. -/
def pkgLess (a b : Package) : Bool :=
  let aTest := a.name.endsWith "_test"
  let bTest := b.name.endsWith "_test"
  if aTest != bTest then !aTest
  else decide (a.files.length < b.files.length)

/-- Embeds the out-type-name selection in `main`'s type loop: with no
`-outType` list the default name is used; otherwise the element at the
type's index in the *current* name list is used, with `_` (or an empty
entry) falling back to the default name. -/
def chosenOutTypeName (outTypeNames : List String) (idx : Nat)
    (sourceTypeName : String) : String :=
  if outTypeNames.isEmpty then defaultOutTypeName sourceTypeName
  else
    let o := outTypeNames.getD idx ""
    if o = "_" then defaultOutTypeName sourceTypeName
    else if o = "" then defaultOutTypeName sourceTypeName
    else o

/-- Embeds the per-package type loop in `main`: for each still-requested
type name (indexed in the current list), look it up in the package's
files; a found but invalid scan is fatal; a found valid scan is generated
(fatally checking sizes); a missing name is carried to the remaining
list. -/
def processTypes (pkg : Package) (flagsSizeFlag : Nat) (outTypeNames : List String) :
    Nat → List String → Except GenError (List Emission × List String)
  | _, [] => .ok ([], [])
  | idx, t :: rest =>
    match findStructTypeFile pkg.files t with
    | some scan =>
      if scan.isValidStructFile then
        match generateForStruct t (chosenOutTypeName outTypeNames idx t)
            flagsSizeFlag scan with
        | .error e => .error e
        | .ok e =>
          match processTypes pkg flagsSizeFlag outTypeNames (idx + 1) rest with
          | .error e' => .error e'
          | .ok (es, rem) => .ok (e :: es, rem)
      else .error (.unsupportedType t pkg.name)
    | none =>
      match processTypes pkg flagsSizeFlag outTypeNames (idx + 1) rest with
      | .error e' => .error e'
      | .ok (es, rem) => .ok (es, t :: rem)

/-- Embeds `main`'s package loop: process the packages in their sorted
order, skipping emission for a package that resolved nothing, failing on
an explicit `-outFile` when types remain for later packages, shrinking
the requested list to the remaining types after each emitting package,
and failing at the end when names are still unresolved.  The result is
one `(package name, emissions)` entry per package variant that emitted a
file, in write order. -/
def processPackages (flagsSizeFlag : Nat) (outTypeNames : List String)
    (outFileFlag : String) :
    List Package → List String → Except GenError (List (String × List Emission))
  | [], names =>
    if names.isEmpty then .ok []
    else .error (.noMatchingTypes names)
  | pkg :: pkgs, names =>
    match processTypes pkg flagsSizeFlag outTypeNames 0 names with
    | .error e => .error e
    | .ok (emissions, remaining) =>
      if emissions.isEmpty then
        processPackages flagsSizeFlag outTypeNames outFileFlag pkgs names
      else if !remaining.isEmpty && outFileFlag ≠ "" then
        .error (.singleOutFileConflict outFileFlag)
      else
        match processPackages flagsSizeFlag outTypeNames outFileFlag pkgs remaining with
        | .error e => .error e
        | .ok rest => .ok ((pkg.name, emissions) :: rest)

/-!
Part 4: concrete fixtures used by the theorems and witnesses.
-/

/-- The spec's example struct: `{Flag1 bool, Field2 int, Field3 string,
Flag2 bool}` plus a field `Field4` whose type is a nested struct that
itself holds a `bool` field named `Flag2`. -/
def exampleFields : List (List String × GoFieldType) :=
  [ (["Flag1"], .goBool),
    (["Field2"], .basicNonBool "int"),
    (["Field3"], .basicNonBool "string"),
    (["Flag2"], .goBool),
    (["Field4"], .structType [(["Flag2"], .goBool)]) ]

/-- A production package declaring struct type `A` with one bool field. -/
def prodPkgA : Package :=
  ⟨"p", [[⟨"A", .structType [(["F"], .goBool)]⟩]], false⟩

/-- An external test package (`p_test`) declaring struct type `B` with
one bool field. -/
def testPkgB : Package :=
  ⟨"p_test", [[⟨"B", .structType [(["G"], .goBool)]⟩]], true⟩

/-- A production package declaring struct type `T` with one bool field. -/
def prodPkgT : Package :=
  ⟨"p", [[⟨"T", .structType [(["F"], .goBool)]⟩]], false⟩

/-- An external test package declaring the same struct type `T` with the
same field, for the duplicate-declaration scenario. -/
def testPkgT : Package :=
  ⟨"p_test", [[⟨"T", .structType [(["F"], .goBool)]⟩]], true⟩

end Flagged

/-! Claim theorems and shared helper lemmas. -/

namespace Flagged

theorem trimPrefix_nil (f : List Char) : trimPrefix f [] = f := by
  simp [trimPrefix, List.isPrefixOf]

theorem trimSuffix_nil (f : List Char) : trimSuffix f [] = f := by
  simp [trimSuffix, List.isSuffixOf]

/-- The conditional trims in `flagName` equal unconditional trims. -/
theorem flagName_eq_match (f p s : List Char) :
    flagName f p s =
      match trimSuffix (trimPrefix f p) s with
      | [] => none
      | c :: cs => some (c.toUpper :: cs) := by
  unfold flagName
  cases p with
  | nil => cases s with
    | nil => simp [trimPrefix_nil, trimSuffix_nil]
    | cons c cs => simp [trimPrefix_nil]
  | cons c cs => cases s with
    | nil => simp [trimSuffix_nil]
    | cons d ds => simp

/-- The spec-side flag name also factors through the unconditional
trims. -/
theorem specFlagName_eq_match (f p s : List Char) :
    specFlagName f p s =
      match trimSuffix (trimPrefix f p) s with
      | [] => []
      | c :: cs => c.toUpper :: cs := rfl

/-- The index check of `validateBitIndex` succeeds exactly on in-range
indexes. -/
theorem validateBitIndex_eq (size : Nat) (idx : Int) :
    validateBitIndex size idx = true ↔ ¬(idx < 0 ∨ (size : Int) ≤ idx) := by
  simp [validateBitIndex]

/-- Once the validating fold of `anySet`/`allSet` has panicked it stays
panicked. -/
theorem foldl_validate_none (size : Nat) (g : Bool → Int → Bool) (l : List Int) :
    l.foldl (fun acc bi =>
      match acc with
      | none => none
      | some fs => if validateBitIndex size bi then some (g fs bi) else none)
      none = none := by
  induction l with
  | nil => rfl
  | cons i l ih => simpa using ih

/-- The validating fold of `anySet`/`allSet` panics exactly when some
index in the list is out of range. -/
theorem foldl_validate_eq_none (size : Nat) (g : Bool → Int → Bool)
    (l : List Int) : ∀ b : Bool,
    (l.foldl (fun acc bi =>
      match acc with
      | none => none
      | some fs => if validateBitIndex size bi then some (g fs bi) else none)
      (some b)) = none ↔ ∃ i ∈ l, i < 0 ∨ (size : Int) ≤ i := by
  induction l with
  | nil => intro b; simp
  | cons i l ih =>
    intro b
    by_cases hv : validateBitIndex size i = true
    · have hi : ¬(i < 0 ∨ (size : Int) ≤ i) := (validateBitIndex_eq size i).mp hv
      simp only [List.foldl_cons, hv, if_true]
      rw [ih (g b i)]
      simp [hi]
    · have hi : i < 0 ∨ (size : Int) ≤ i := by
        have := (validateBitIndex_eq size i).not.mp hv
        omega
      simp only [List.foldl_cons, hv, if_false, Bool.false_eq_true]
      simp [foldl_validate_none, hi]

end Flagged

/-- C9: for every BitFlags8/16/32/64 width, each index-taking operation
of the runtime (`is`, `set` serving Set/Reset/SetTo, `toggle`, and the
validating folds of AnyOf/AllOf) panics — embedded as `none` — exactly
when a given index is `< 0` or `≥ Size()`, and completes for all in-range
indexes. -/
theorem claim_c9_index_validation (size : Nat) (_hsize : size ∈ [8, 16, 32, 64])
    (f : Nat) (idx : Int) (nv : Bool) (idxs : List Int) :
    (Flagged.isOp size f idx = none ↔ (idx < 0 ∨ (size : Int) ≤ idx)) ∧
    (Flagged.setOp size f idx nv = none ↔ (idx < 0 ∨ (size : Int) ≤ idx)) ∧
    (Flagged.toggleOp size f idx = none ↔ (idx < 0 ∨ (size : Int) ≤ idx)) ∧
    (Flagged.anySetOp size f idxs = none ↔ ∃ i ∈ idxs, i < 0 ∨ (size : Int) ≤ i) ∧
    (Flagged.allSetOp size f idxs = none ↔ ∃ i ∈ idxs, i < 0 ∨ (size : Int) ≤ i) := by
  have hany : Flagged.anySetOp size f idxs = none ↔
      ∃ i ∈ idxs, i < 0 ∨ (size : Int) ≤ i := by
    unfold Flagged.anySetOp
    by_cases he : idxs.isEmpty
    · simp [he, List.isEmpty_iff.mp he]
    · simp only [he, Bool.false_eq_true, if_false]
      exact Flagged.foldl_validate_eq_none size _ idxs false
  have hall : Flagged.allSetOp size f idxs = none ↔
      ∃ i ∈ idxs, i < 0 ∨ (size : Int) ≤ i := by
    unfold Flagged.allSetOp
    by_cases he : idxs.isEmpty
    · simp [he, List.isEmpty_iff.mp he]
    · simp only [he, Bool.false_eq_true, if_false]
      exact Flagged.foldl_validate_eq_none size _ idxs true
  by_cases hv : Flagged.validateBitIndex size idx = true
  case pos =>
    have hi : ¬(idx < 0 ∨ (size : Int) ≤ idx) :=
      (Flagged.validateBitIndex_eq size idx).mp hv
    exact ⟨by simpa [Flagged.isOp, hv] using hi,
      by simpa [Flagged.setOp, hv] using hi,
      by simpa [Flagged.toggleOp, hv] using hi, hany, hall⟩
  case neg =>
    have hi : idx < 0 ∨ (size : Int) ≤ idx := by
      have := (Flagged.validateBitIndex_eq size idx).not.mp hv
      omega
    exact ⟨by simpa [Flagged.isOp, hv] using hi,
      by simpa [Flagged.setOp, hv] using hi,
      by simpa [Flagged.toggleOp, hv] using hi, hany, hall⟩

namespace Flagged

/-- Above 64 fields, the `flagSize` switch falls through to its default
branch and returns the field count unchanged. -/
theorem flagSize_gt64 (n : Nat) (h : 64 < n) : flagSize n = n := by
  unfold flagSize
  rw [if_neg (by omega), if_neg (by omega), if_neg (by omega), if_neg (by omega)]

/-- `genStructDecl` always derives the flags size from the number of
collected flag values. -/
theorem genStructDecl_flagsSize (t : String) (specs : List TypeSpec) :
    (genStructDecl t specs).flagsSize =
      flagSize (genStructDecl t specs).flagValues.length := rfl

end Flagged

theorem claim_c9_witness :
    (Flagged.isOp 8 5 3 = none ↔ ((3 : Int) < 0 ∨ (8 : Int) ≤ 3)) ∧
    (Flagged.setOp 8 5 3 true = none ↔ ((3 : Int) < 0 ∨ (8 : Int) ≤ 3)) ∧
    (Flagged.toggleOp 8 5 3 = none ↔ ((3 : Int) < 0 ∨ (8 : Int) ≤ 3)) ∧
    (Flagged.anySetOp 8 5 [0, 9] = none ↔
      ∃ i ∈ ([0, 9] : List Int), i < 0 ∨ (8 : Int) ≤ i) ∧
    (Flagged.allSetOp 8 5 [0, 9] = none ↔
      ∃ i ∈ ([0, 9] : List Int), i < 0 ∨ (8 : Int) ≤ i) :=
  claim_c9_index_validation 8 (by decide) 5 3 true [0, 9]

/-- C2: for every field count `n` with `1 ≤ n ≤ 64`, `flagSize n` is the
smallest value in `{8, 16, 32, 64}` that is `≥ n`. -/
theorem claim_c2_minimal_width (n : Nat) (h1 : 1 ≤ n) (h2 : n ≤ 64) :
    Flagged.flagSize n ∈ [8, 16, 32, 64] ∧ n ≤ Flagged.flagSize n ∧
      ∀ w ∈ [8, 16, 32, 64], n ≤ w → Flagged.flagSize n ≤ w := by
  interval_cases n <;> decide

theorem claim_c2_minimal_width_witness :
    Flagged.flagSize 9 ∈ [8, 16, 32, 64] ∧ 9 ≤ Flagged.flagSize 9 ∧
      ∀ w ∈ [8, 16, 32, 64], 9 ≤ w → Flagged.flagSize 9 ≤ w :=
  claim_c2_minimal_width 9 (by decide) (by decide)

/-- C8: for every field name whose trimmed result is non-empty, the flag
name is obtained by removing the prefix when the name starts with it,
then the suffix when the remainder ends with it, then upper-casing the
first character; in particular `optFlagEnabled` with prefix `opt` and
suffix `Enabled` yields `Flag`. -/
theorem claim_c8_flag_name_derivation (f p s : List Char)
    (h : Flagged.trimSuffix (Flagged.trimPrefix f p) s ≠ []) :
    Flagged.flagName f p s = some (Flagged.specFlagName f p s) ∧
      Flagged.flagName "optFlagEnabled".data "opt".data "Enabled".data =
        some "Flag".data := by
  refine ⟨?_, by decide⟩
  rw [Flagged.flagName_eq_match, Flagged.specFlagName_eq_match]
  cases htr : Flagged.trimSuffix (Flagged.trimPrefix f p) s with
  | nil => exact absurd htr h
  | cons c cs => rfl

theorem claim_c8_witness :
    Flagged.flagName "optFlagEnabled".data "opt".data "Enabled".data =
        some (Flagged.specFlagName "optFlagEnabled".data "opt".data "Enabled".data) ∧
      Flagged.flagName "optFlagEnabled".data "opt".data "Enabled".data =
        some "Flag".data :=
  claim_c8_flag_name_derivation "optFlagEnabled".data "opt".data "Enabled".data
    (by decide)

/-- C10: if trimming the configured prefix/suffix from a qualifying bool
field name leaves the empty string, `flagName` hits index 0 of an empty
slice and panics (embedded as `none`), crashing the generator; in
particular a struct whose only bool field is named exactly the trim
prefix `opt` makes the flag-naming step of the scan panic. -/
theorem claim_c10_empty_trim_panics (f p s : List Char)
    (h : Flagged.trimSuffix (Flagged.trimPrefix f p) s = []) :
    Flagged.flagName f p s = none ∧
      Flagged.fileFlagNames "opt".data []
        (Flagged.genStructDecl "Options"
          [⟨"Options", .structType [(["opt"], .goBool)]⟩]) = none := by
  refine ⟨?_, by rfl⟩
  rw [Flagged.flagName_eq_match, h]

theorem claim_c10_witness :
    Flagged.flagName "opt".data "opt".data [] = none ∧
      Flagged.fileFlagNames "opt".data []
        (Flagged.genStructDecl "Options"
          [⟨"Options", .structType [(["opt"], .goBool)]⟩]) = none :=
  claim_c10_empty_trim_panics "opt".data "opt".data [] (by decide)

namespace Flagged

/-- `structCandidates` is the concatenation of the per-field-group
candidate lists, in declaration order. -/
theorem structCandidates_eq_flatMap (fields : List (List String × GoFieldType)) :
    structCandidates fields = fields.flatMap fieldGroupCandidates := by
  unfold structCandidates
  suffices h : ∀ acc : List String,
      fields.foldl (fun a f => a ++ fieldGroupCandidates f) acc =
        acc ++ fields.flatMap fieldGroupCandidates by
    simpa using h []
  induction fields with
  | nil => intro acc; simp
  | cons x l ih => intro acc; simp [ih, List.flatMap_cons]

/-- A struct of `n` plain bool fields yields `n` flag values: the
candidate list is never truncated. -/
theorem structCandidates_replicate_length (n : Nat) :
    (structCandidates (List.replicate n (["F"], GoFieldType.goBool))).length = n := by
  rw [structCandidates_eq_flatMap]
  induction n with
  | zero => rfl
  | succ n ih =>
    rw [List.replicate_succ, List.flatMap_cons, List.length_append, ih]
    have h1 : (fieldGroupCandidates (["F"], GoFieldType.goBool)).length = 1 := rfl
    omega

end Flagged

/-- C3: with minimal width `m = scan.flagsSize` (at most 64) and a
`-size` override `s` in `{0, 8, 16, 32, 64}`: `s = 0` emits width `m`;
`0 < s < m` aborts the run fatally with a diagnostic carrying the type
name, `m` and `s`; `s ≥ m` emits width `s`; and any fatal error raised in
a package's type loop aborts the whole run, so no file is recorded for
that variant or any later one. -/
theorem claim_c3_size_override (t o : String) (s : Nat) (scan : Flagged.FileScan)
    (hm : scan.flagsSize ≤ 64) (hs : s ∈ [0, 8, 16, 32, 64]) :
    (s = 0 → Flagged.generateForStruct t o s scan =
      .ok ⟨t, o, scan.flagsSize⟩) ∧
    (0 < s → s < scan.flagsSize → Flagged.generateForStruct t o s scan =
      .error (.sizeTooSmall t scan.flagsSize s)) ∧
    (scan.flagsSize ≤ s → Flagged.generateForStruct t o s scan = .ok ⟨t, o, s⟩) ∧
    (∀ (pkg : Flagged.Package) (pkgs : List Flagged.Package)
        (names outs : List String) (ofl : String) (e : Flagged.GenError),
      Flagged.processTypes pkg s outs 0 names = .error e →
      Flagged.processPackages s outs ofl (pkg :: pkgs) names = .error e) := by
  have hnl : ¬(scan.flagsSize > 64) := Nat.not_lt.mpr hm
  refine ⟨?_, ?_, ?_, ?_⟩
  · intro h0
    subst h0
    simp [Flagged.generateForStruct, Flagged.reconcileSize, hnl]
  · intro h1 h2
    have hne : s ≠ 0 := by omega
    simp [Flagged.generateForStruct, Flagged.reconcileSize, hnl, hne, h2]
  · intro hle
    by_cases h0 : s = 0
    · subst h0
      have hm0 : scan.flagsSize = 0 := Nat.le_zero.mp hle
      simp [Flagged.generateForStruct, Flagged.reconcileSize, hnl, hm0]
    · simp [Flagged.generateForStruct, Flagged.reconcileSize, hnl, h0,
        Nat.not_lt.mpr hle]
  · intro pkg pkgs names outs ofl e he
    simp [Flagged.processPackages, he]

theorem claim_c3_witness :
    ((8 : Nat) = 0 → Flagged.generateForStruct "T" "O" 8 ⟨true, ["F"], 8⟩ =
      .ok ⟨"T", "O", (Flagged.FileScan.mk true ["F"] 8).flagsSize⟩) ∧
    (0 < 8 → 8 < (Flagged.FileScan.mk true ["F"] 8).flagsSize →
      Flagged.generateForStruct "T" "O" 8 ⟨true, ["F"], 8⟩ =
        .error (.sizeTooSmall "T" (Flagged.FileScan.mk true ["F"] 8).flagsSize 8)) ∧
    ((Flagged.FileScan.mk true ["F"] 8).flagsSize ≤ 8 →
      Flagged.generateForStruct "T" "O" 8 ⟨true, ["F"], 8⟩ = .ok ⟨"T", "O", 8⟩) ∧
    (∀ (pkg : Flagged.Package) (pkgs : List Flagged.Package)
        (names outs : List String) (ofl : String) (e : Flagged.GenError),
      Flagged.processTypes pkg 8 outs 0 names = .error e →
      Flagged.processPackages 8 outs ofl (pkg :: pkgs) names = .error e) :=
  claim_c3_size_override "T" "O" 8 ⟨true, ["F"], 8⟩ (by decide) (by decide)

/-- C4: a matched type whose scan collected more than 64 qualifying bool
fields makes the run fail fatally with a diagnostic carrying that exact
count and the 64-bit maximum, whatever the `-size` override; and the
field list is never truncated: a struct of `n` bool fields yields `n`
flag values for every `n`. -/
theorem claim_c4_too_many_fields (t o : String) (sFlag : Nat)
    (specs : List Flagged.TypeSpec)
    (hn : 64 < (Flagged.genStructDecl t specs).flagValues.length) :
    Flagged.generateForStruct t o sFlag (Flagged.genStructDecl t specs) =
      .error (.tooManyFields t
        (Flagged.genStructDecl t specs).flagValues.length 64) ∧
    ∀ n : Nat, (Flagged.genStructDecl "T"
        [⟨"T", .structType (List.replicate n (["F"], .goBool))⟩]).flagValues.length
      = n := by
  constructor
  · have hfs : (Flagged.genStructDecl t specs).flagsSize =
        (Flagged.genStructDecl t specs).flagValues.length := by
      rw [Flagged.genStructDecl_flagsSize, Flagged.flagSize_gt64 _ hn]
    simp [Flagged.generateForStruct, hfs, hn]
  · intro n
    have hfv : (Flagged.genStructDecl "T"
        [⟨"T", .structType (List.replicate n (["F"], .goBool))⟩]).flagValues =
          Flagged.structCandidates (List.replicate n (["F"], .goBool)) := by
      rfl
    rw [hfv, Flagged.structCandidates_replicate_length]

namespace Flagged

/-- Specs whose names all differ from the requested one leave the scan
state untouched. -/
theorem foldl_step_no_match (t : String) (l : List TypeSpec) :
    ∀ st : FileScan, (∀ s ∈ l, s.name ≠ t) →
      l.foldl (genStructDeclStep t) st = st := by
  induction l with
  | nil => intro st _; rfl
  | cons s l ih =>
    intro st h
    have hs : s.name ≠ t := h s (by simp)
    rw [List.foldl_cons]
    rw [show genStructDeclStep t st s = st by simp [genStructDeclStep, hs]]
    exact ih st (fun x hx => h x (by simp [hx]))

/-- The candidate list the resolver's loop builds equals the spec's
declarative description of the Field Candidates. -/
theorem structCandidates_eq_spec (fields : List (List String × GoFieldType)) :
    structCandidates fields = specCandidates fields := by
  rw [structCandidates_eq_flatMap]
  unfold specCandidates
  induction fields with
  | nil => rfl
  | cons f l ih =>
    by_cases he : f.1.isEmpty
    · simp only [List.flatMap_cons, List.filter_cons, he, Bool.not_true,
        Bool.false_eq_true, if_false, ih]
      simp [fieldGroupCandidates, he]
    · simp only [List.flatMap_cons, List.filter_cons, he, Bool.not_false,
        if_true, List.flatMap_cons, ih]
      have hg : fieldGroupCandidates f =
          f.1.filter (fun n => decide (n ≠ "_" ∧ isBasicBool f.2 = true)) := by
        unfold fieldGroupCandidates
        rw [if_neg (by simp [he])]
        apply List.filter_congr
        intro x _
        cases hb : isBasicBool f.2 <;> simp [hb, bne, beq_eq_decide]
      rw [hg]

end Flagged

/-- C1: for a struct-shaped declaration of the requested name, the
resolver's Field Candidates are exactly the declaration's top-level
fields that are named (not embedded), not the blank identifier, and of
builtin-boolean resolved type, in declaration order; non-qualifying
fields are skipped without error and nested struct fields are never
visited, so the example struct `{Flag1 bool, Field2 int, Field3 string,
Flag2 bool, Field4 struct{Flag2 bool}}` yields exactly `Flag1, Flag2`. -/
theorem claim_c1_resolver_candidates (t : String)
    (pre post : List Flagged.TypeSpec)
    (fields : List (List String × Flagged.GoFieldType))
    (hpre : ∀ s ∈ pre, s.name ≠ t) (hpost : ∀ s ∈ post, s.name ≠ t) :
    (Flagged.genStructDecl t
        (pre ++ ⟨t, .structType fields⟩ :: post)).flagValues =
      Flagged.specCandidates fields ∧
    (Flagged.genStructDecl "T"
        [⟨"T", .structType Flagged.exampleFields⟩]).flagValues =
      ["Flag1", "Flag2"] := by
  refine ⟨?_, by rfl⟩
  show (List.foldl (Flagged.genStructDeclStep t) ⟨false, [], 0⟩
      (pre ++ ⟨t, .structType fields⟩ :: post)).flagValues = _
  rw [List.foldl_append, Flagged.foldl_step_no_match t pre _ hpre,
    List.foldl_cons, Flagged.foldl_step_no_match t post _ hpost]
  have hstep : Flagged.genStructDeclStep t ⟨false, [], 0⟩ ⟨t, .structType fields⟩ =
      ⟨true, Flagged.structCandidates fields, 0⟩ := by
    simp [Flagged.genStructDeclStep]
  rw [hstep]
  exact Flagged.structCandidates_eq_spec fields

theorem claim_c1_witness :
    (Flagged.genStructDecl "T"
        ([] ++ ⟨"T", .structType Flagged.exampleFields⟩ :: [])).flagValues =
      Flagged.specCandidates Flagged.exampleFields ∧
    (Flagged.genStructDecl "T"
        [⟨"T", .structType Flagged.exampleFields⟩]).flagValues =
      ["Flag1", "Flag2"] :=
  claim_c1_resolver_candidates "T" [] [] Flagged.exampleFields
    (by simp) (by simp)

/-- C7: a declaration site whose matching type declaration is not
struct-shaped, or is a struct with zero qualifying bool fields, is still
marked found — so neither the remaining files of the package nor any
later package variant is searched for that name — and the run then fails
fatally (`unsupported type`) instead of silently skipping the type. -/
theorem claim_c7_found_but_invalid (t pkgName : String)
    (f1 : List Flagged.TypeSpec) (rest : List (List Flagged.TypeSpec))
    (hasTests : Bool) (morePkgs : List Flagged.Package) (sFlag : Nat)
    (outs : List String) (ofl : String)
    (hfound : (Flagged.genStructDecl t f1).foundSourceType = true)
    (hempty : (Flagged.genStructDecl t f1).flagValues = []) :
    Flagged.findStructTypeFile (f1 :: rest) t =
      some (Flagged.genStructDecl t f1) ∧
    Flagged.processPackages sFlag outs ofl
        (⟨pkgName, f1 :: rest, hasTests⟩ :: morePkgs) [t] =
      .error (.unsupportedType t pkgName) ∧
    (∀ ty : Flagged.GoFieldType,
      (Flagged.genStructDecl t [⟨t, ty⟩]).foundSourceType = true) ∧
    (∀ bname : String,
      (Flagged.genStructDecl t [⟨t, .basicNonBool bname⟩]).flagValues = []) := by
  have hfile : Flagged.findStructTypeFile (f1 :: rest) t =
      some (Flagged.genStructDecl t f1) := by
    unfold Flagged.findStructTypeFile
    simp [hfound]
  refine ⟨hfile, ?_, ?_, ?_⟩
  · have htypes : Flagged.processTypes ⟨pkgName, f1 :: rest, hasTests⟩ sFlag outs 0 [t] =
        .error (.unsupportedType t pkgName) := by
      unfold Flagged.processTypes
      rw [show (Flagged.Package.mk pkgName (f1 :: rest) hasTests).files =
        f1 :: rest from rfl, hfile]
      simp [Flagged.FileScan.isValidStructFile, hempty]
    simp [Flagged.processPackages, htypes]
  · intro ty
    show (Flagged.genStructDeclStep t ⟨false, [], 0⟩ ⟨t, ty⟩).foundSourceType = true
    cases ty <;> simp [Flagged.genStructDeclStep]
  · intro bname
    show (Flagged.genStructDeclStep t ⟨false, [], 0⟩
      ⟨t, .basicNonBool bname⟩).flagValues = []
    simp [Flagged.genStructDeclStep]

theorem claim_c7_witness :
    Flagged.findStructTypeFile ([⟨"T", .basicNonBool "int"⟩] :: []) "T" =
      some (Flagged.genStructDecl "T" [⟨"T", .basicNonBool "int"⟩]) ∧
    Flagged.processPackages 0 [] ""
        (⟨"p", [⟨"T", .basicNonBool "int"⟩] :: [], false⟩ :: []) ["T"] =
      .error (.unsupportedType "T" "p") ∧
    (∀ ty : Flagged.GoFieldType,
      (Flagged.genStructDecl "T" [⟨"T", ty⟩]).foundSourceType = true) ∧
    (∀ bname : String,
      (Flagged.genStructDecl "T" [⟨"T", .basicNonBool bname⟩]).flagValues = []) :=
  claim_c7_found_but_invalid "T" "p" [⟨"T", .basicNonBool "int"⟩] [] false [] 0
    [] "" (by rfl) (by rfl)


namespace Flagged

theorem generateForStruct_ok_name (t o : String) (s : Nat) (scan : FileScan)
    (e : Emission) (h : generateForStruct t o s scan = .ok e) :
    e.sourceTypeName = t := by
  unfold generateForStruct at h
  split at h
  · exact absurd h (by simp)
  · split at h
    · exact absurd h (by simp)
    · cases h
      rfl

theorem processTypes_ok_characterization (pkg : Package) (fs : Nat)
    (outs : List String) (names : List String) :
    ∀ (idx : Nat) (es : List Emission) (rem : List String),
      processTypes pkg fs outs idx names = .ok (es, rem) →
      es.map Emission.sourceTypeName =
          names.filter (fun T => (findStructTypeFile pkg.files T).isSome) ∧
        rem = names.filter (fun T => !(findStructTypeFile pkg.files T).isSome) := by
  induction names with
  | nil =>
    intro idx es rem h
    unfold processTypes at h
    cases h
    exact ⟨rfl, rfl⟩
  | cons t restNames ih =>
    intro idx es rem h
    unfold processTypes at h
    split at h
    next scan hf =>
      split at h
      next hv =>
        cases hg : generateForStruct t (chosenOutTypeName outs idx t) fs scan with
        | error e' => simp [hg] at h
        | ok e =>
          simp only [hg] at h
          cases hr : processTypes pkg fs outs (idx + 1) restNames with
          | error e'' => simp [hr] at h
          | ok pr =>
            obtain ⟨es', rem'⟩ := pr
            simp only [hr, Except.ok.injEq, Prod.mk.injEq] at h
            obtain ⟨h1, h2⟩ := h
            subst h1
            subst h2
            obtain ⟨ih1, ih2⟩ := ih (idx + 1) es' rem' hr
            constructor
            · rw [List.map_cons, ih1, List.filter_cons, if_pos (by simp [hf]),
                generateForStruct_ok_name t _ fs scan e hg]
            · rw [ih2, List.filter_cons, if_neg (by simp [hf])]
      next hv => exact absurd h (by simp)
    next hf =>
      cases hr : processTypes pkg fs outs (idx + 1) restNames with
      | error e'' => simp [hr] at h
      | ok pr =>
        obtain ⟨es', rem'⟩ := pr
        simp only [hr, Except.ok.injEq, Prod.mk.injEq] at h
        obtain ⟨h1, h2⟩ := h
        subst h1
        subst h2
        obtain ⟨ih1, ih2⟩ := ih (idx + 1) es' rem' hr
        constructor
        · rw [ih1, List.filter_cons, if_neg (by simp [hf])]
        · rw [ih2, List.filter_cons, if_pos (by simp [hf])]


/-- Counting occurrences distributes over a filter partition. -/
theorem count_filter_partition (p : String → Bool) (l : List String)
    (T : String) :
    ((l.filter p).count T + (l.filter (fun x => !p x)).count T) = l.count T := by
  have hperm := List.filter_append_perm p l
  have hc := hperm.count_eq T
  simpa [List.count_append] using hc

/-- A name that is not requested is never emitted, by this package or any
later one. -/
theorem processPackages_not_mem (fs : Nat) (outs : List String) (ofl : String) :
    ∀ (pkgs : List Package) (names : List String)
      (res : List (String × List Emission)) (T : String),
      processPackages fs outs ofl pkgs names = .ok res → T ∉ names →
      ∀ entry ∈ res, T ∉ entry.2.map Emission.sourceTypeName := by
  intro pkgs
  induction pkgs with
  | nil =>
    intro names res T h _ entry hentry
    unfold processPackages at h
    by_cases he : names.isEmpty
    · rw [if_pos he] at h
      cases h
      simp at hentry
    · rw [if_neg he] at h
      exact absurd h (by simp)
  | cons pkg pkgs ih =>
    intro names res T h hT entry hentry
    unfold processPackages at h
    cases hp : processTypes pkg fs outs 0 names with
    | error e => simp [hp] at h
    | ok pr =>
      obtain ⟨emissions, remaining⟩ := pr
      simp only [hp] at h
      obtain ⟨hsrc, hrem⟩ := processTypes_ok_characterization pkg fs outs names 0
        emissions remaining hp
      by_cases hemp : emissions.isEmpty
      · rw [if_pos hemp] at h
        exact ih names res T h hT entry hentry
      · rw [if_neg hemp] at h
        by_cases hconf : (!remaining.isEmpty && decide (ofl ≠ "")) = true
        · rw [if_pos hconf] at h
          exact absurd h (by simp)
        · rw [if_neg hconf] at h
          cases hrec : processPackages fs outs ofl pkgs remaining with
          | error e => simp [hrec] at h
          | ok restRes =>
            simp only [hrec, Except.ok.injEq] at h
            subst h
            have hTrem : T ∉ remaining := by
              rw [hrem]
              intro hmem
              exact hT (List.mem_of_mem_filter hmem)
            rcases List.mem_cons.mp hentry with hhead | htail
            · subst hhead
              intro hmem
              rw [hsrc] at hmem
              exact hT (List.mem_of_mem_filter hmem)
            · exact ih remaining restRes T hrec hTrem entry htail

/-- A successful run emits every requested name exactly as many times as
it was requested. -/
theorem processPackages_count (fs : Nat) (outs : List String) (ofl : String) :
    ∀ (pkgs : List Package) (names : List String)
      (res : List (String × List Emission)) (T : String),
      processPackages fs outs ofl pkgs names = .ok res →
      (res.flatMap (fun e => e.2.map Emission.sourceTypeName)).count T =
        names.count T := by
  intro pkgs
  induction pkgs with
  | nil =>
    intro names res T h
    unfold processPackages at h
    by_cases he : names.isEmpty
    · rw [if_pos he] at h
      cases h
      rw [List.isEmpty_iff.mp he]
      rfl
    · rw [if_neg he] at h
      exact absurd h (by simp)
  | cons pkg pkgs ih =>
    intro names res T h
    unfold processPackages at h
    cases hp : processTypes pkg fs outs 0 names with
    | error e => simp [hp] at h
    | ok pr =>
      obtain ⟨emissions, remaining⟩ := pr
      simp only [hp] at h
      obtain ⟨hsrc, hrem⟩ := processTypes_ok_characterization pkg fs outs names 0
        emissions remaining hp
      by_cases hemp : emissions.isEmpty
      · rw [if_pos hemp] at h
        exact ih names res T h
      · rw [if_neg hemp] at h
        by_cases hconf : (!remaining.isEmpty && decide (ofl ≠ "")) = true
        · rw [if_pos hconf] at h
          exact absurd h (by simp)
        · rw [if_neg hconf] at h
          cases hrec : processPackages fs outs ofl pkgs remaining with
          | error e => simp [hrec] at h
          | ok restRes =>
            simp only [hrec, Except.ok.injEq] at h
            subst h
            rw [List.flatMap_cons, List.count_append, hsrc,
              ih remaining restRes T hrec, hrem]
            exact count_filter_partition _ names T

end Flagged

/-- C5: the comparator sorts production-named package variants before
`_test`-named ones, and among same-kind variants the one with fewer
files first (the ordinary package's files are a strict subset of the
test-compiled variant's); each requested type is resolved at the first package
variant (in processed order) whose files contain it and is then removed
from the unresolved set, so a type found in the first (production)
variant is emitted there and in no later variant — in particular never
from an external test variant that also declares it — and every
requested name is emitted exactly as often as requested. -/
theorem claim_c5_resolution_order (fs : Nat) (outs : List String) (ofl : String)
    (prod : Flagged.Package) (rest : List Flagged.Package)
    (names : List String) (T : String)
    (res : List (String × List Flagged.Emission))
    (hok : Flagged.processPackages fs outs ofl (prod :: rest) names = .ok res)
    (hT : T ∈ names)
    (hfind : (Flagged.findStructTypeFile prod.files T).isSome = true) :
    (∃ es tail, res = (prod.name, es) :: tail ∧
        T ∈ es.map Flagged.Emission.sourceTypeName ∧
        ∀ entry ∈ tail, T ∉ entry.2.map Flagged.Emission.sourceTypeName) ∧
    ((res.flatMap (fun e => e.2.map Flagged.Emission.sourceTypeName)).count T =
      names.count T) ∧
    (∀ a b : Flagged.Package, a.name.endsWith "_test" = false →
      b.name.endsWith "_test" = true →
      Flagged.pkgLess a b = true ∧ Flagged.pkgLess b a = false) ∧
    (∀ a b : Flagged.Package, a.name.endsWith "_test" = b.name.endsWith "_test" →
      Flagged.pkgLess a b = decide (a.files.length < b.files.length)) := by
  refine ⟨?_, Flagged.processPackages_count fs outs ofl _ names res T hok, ?_, ?_⟩
  · unfold Flagged.processPackages at hok
    cases hp : Flagged.processTypes prod fs outs 0 names with
    | error e => simp [hp] at hok
    | ok pr =>
      obtain ⟨emissions, remaining⟩ := pr
      simp only [hp] at hok
      obtain ⟨hsrc, hrem⟩ := Flagged.processTypes_ok_characterization prod fs
        outs names 0 emissions remaining hp
      have hmemT : T ∈ emissions.map Flagged.Emission.sourceTypeName := by
        rw [hsrc]
        exact List.mem_filter.mpr ⟨hT, hfind⟩
      have hemp : emissions.isEmpty = false := by
        cases emissions with
        | nil => simp at hmemT
        | cons _ _ => rfl
      simp only [hemp, Bool.false_eq_true, if_false] at hok
      by_cases hconf : (!remaining.isEmpty && decide (ofl ≠ "")) = true
      · rw [if_pos hconf] at hok
        exact absurd hok (by simp)
      · rw [if_neg hconf] at hok
        cases hrec : Flagged.processPackages fs outs ofl rest remaining with
        | error e => simp [hrec] at hok
        | ok restRes =>
          simp only [hrec, Except.ok.injEq] at hok
          subst hok
          refine ⟨emissions, restRes, rfl, hmemT, ?_⟩
          have hTrem : T ∉ remaining := by
            rw [hrem]
            intro hmem
            have hmem2 := (List.mem_filter.mp hmem).2
            rw [hfind] at hmem2
            simp at hmem2
          exact Flagged.processPackages_not_mem fs outs ofl rest remaining
            restRes T hrec hTrem
  · intro a b ha hb
    constructor <;> simp [Flagged.pkgLess, ha, hb]
  · intro a b hab
    simp [Flagged.pkgLess, hab]

theorem claim_c5_witness :
    (∃ es tail,
        ([("p", [⟨"T", "TBitFlags", 8⟩])] :
            List (String × List Flagged.Emission)) =
          (Flagged.prodPkgT.name, es) :: tail ∧
        "T" ∈ es.map Flagged.Emission.sourceTypeName ∧
        ∀ entry ∈ tail,
          "T" ∉ entry.2.map Flagged.Emission.sourceTypeName) ∧
    ((([("p", [⟨"T", "TBitFlags", 8⟩])] :
          List (String × List Flagged.Emission)).flatMap
        (fun e => e.2.map Flagged.Emission.sourceTypeName)).count "T" =
      (["T"] : List String).count "T") ∧
    (∀ a b : Flagged.Package, a.name.endsWith "_test" = false →
      b.name.endsWith "_test" = true →
      Flagged.pkgLess a b = true ∧ Flagged.pkgLess b a = false) ∧
    (∀ a b : Flagged.Package, a.name.endsWith "_test" = b.name.endsWith "_test" →
      Flagged.pkgLess a b = decide (a.files.length < b.files.length)) :=
  claim_c5_resolution_order 0 [] "" Flagged.prodPkgT [Flagged.testPkgT] ["T"]
    "T" [("p", [⟨"T", "TBitFlags", 8⟩])] (by rfl) (by simp) (by rfl)

/-- C6 (divergence exhibit): with `-type=A,B` and `-outType=X,Y`, where
`A` resolves in the production package and `B` only in the external test
package, the run succeeds but pairs `B` with out type `X` — the element
at `B`'s index in the shrunken remaining-names list — instead of the `Y`
paired with `B` by index in the original `-type` list, because the out
type name list is not re-aligned when the requested-names list shrinks
between package variants. -/
theorem claim_c6_out_type_pairing :
    Flagged.processPackages 0 ["X", "Y"] ""
        [Flagged.prodPkgA, Flagged.testPkgB] ["A", "B"] =
      .ok [("p", [⟨"A", "X", 8⟩]), ("p_test", [⟨"B", "X", 8⟩])] ∧
    ("X" : String) ≠ "Y" := ⟨by rfl, by decide⟩

theorem claim_c4_witness :
    Flagged.generateForStruct "T" "O" 0
        (Flagged.genStructDecl "T"
          [⟨"T", .structType (List.replicate 65 (["F"], .goBool))⟩]) =
      .error (.tooManyFields "T"
        (Flagged.genStructDecl "T"
          [⟨"T", .structType
            (List.replicate 65 (["F"], .goBool))⟩]).flagValues.length 64) ∧
    ∀ n : Nat, (Flagged.genStructDecl "T"
        [⟨"T", .structType (List.replicate n (["F"], .goBool))⟩]).flagValues.length
      = n :=
  claim_c4_too_many_fields "T" "O" 0
    [⟨"T", .structType (List.replicate 65 (["F"], .goBool))⟩] (by decide)
